import Mathlib

/-!
Verification development for the hummingbot-fork repository's trading
feature and controller code.

We shallowly embed the pandas computations of
`core/features/candles/rsi.py`, `core/features/candles/bb.py`,
`app/controllers/directional_trading/ema_crossover.py`,
`app/controllers/directional_trading/macd_momentum.py`, and
`app/tasks/data_collection/pools_screener.py`.

A dataframe cell is modelled as `Option ℚ`: `some q` is a finite float
value, `none` is a non-finite float (NaN; division by zero also produces a
non-finite value and is mapped to `none`). Pandas comparisons against NaN
are `False`, which the `p`-comparison operators reproduce. A column is a
`List (Option ℚ)` (input data) or a function `ℕ → Option ℚ` (derived
column); out-of-range access yields `none`.

The rolling standard deviation used by the Bollinger feature is the
nonnegative square root of the rolling population variance; since the
square root of a rational need not be rational, the std column is passed
to the Bollinger definitions as an explicit series constrained by
`IsRollingStd` (its square is the rolling variance and it is nonnegative,
exactly where the variance is defined).
-/

/-- A pandas dataframe cell: `some q` for a finite value, `none` for NaN
(or another non-finite float). -/
abbrev PF := Option ℚ

/-- Cell addition: NaN-propagating. -/
def pAdd : PF → PF → PF
  | some x, some y => some (x + y)
  | _, _ => none

/-- Cell subtraction: NaN-propagating. -/
def pSub : PF → PF → PF
  | some x, some y => some (x - y)
  | _, _ => none

/-- Cell multiplication: NaN-propagating. -/
def pMul : PF → PF → PF
  | some x, some y => some (x * y)
  | _, _ => none

/-- Cell division. Division by zero yields a non-finite float (NaN or
±infinity), modelled as `none`. -/
def pDiv : PF → PF → PF
  | some x, some y => if y = 0 then none else some (x / y)
  | _, _ => none

/-- Pandas `<` on cells: any comparison involving NaN is `False`. -/
def pLt : PF → PF → Bool
  | some x, some y => decide (x < y)
  | _, _ => false

/-- Pandas `≤` on cells: any comparison involving NaN is `False`. -/
def pLe : PF → PF → Bool
  | some x, some y => decide (x ≤ y)
  | _, _ => false

/-- Pandas `>` on cells. -/
def pGt (a b : PF) : Bool := pLt b a

/-- Pandas `≥` on cells. -/
def pGe (a b : PF) : Bool := pLe b a

/-- `.clip(lower=0)` on a cell (NaN stays NaN). -/
def pClipLower0 (v : PF) : PF := v.map (fun x => max x 0)

/-- Clip a rational to the interval [0, 1]. -/
def clip01 (q : ℚ) : ℚ := min (max q 0) 1

/-- `.clip(0, 1)` on a cell (NaN stays NaN). -/
def pClip01 (v : PF) : PF := v.map clip01

/-- Value of an input column at row `t`; rows outside the column are NaN. -/
def att (l : List PF) (t : ℕ) : PF := (l.get? t).join

/-- `column.shift(1)` evaluated at row `t`: NaN at row 0, else row `t-1`. -/
def shiftAt (l : List PF) (t : ℕ) : PF :=
  match t with
  | 0 => none
  | n + 1 => att l n

/-- `column.diff()` evaluated at row `t`: NaN at row 0, else the difference
with the previous row. -/
def diffAt (l : List PF) (t : ℕ) : PF :=
  match t with
  | 0 => none
  | n + 1 => pSub (att l (n + 1)) (att l n)

/-- The window of the last `n` values of a derived series ending at row `t`
(most recent first). -/
def windowList (f : ℕ → PF) (n t : ℕ) : List PF :=
  (List.range n).map (fun i => f (t - i))

/-- Collect a list of cells into a list of finite values; `none` as soon as
any cell is NaN. -/
def seqCells : List PF → Option (List ℚ)
  | [] => some []
  | none :: _ => none
  | some x :: rest => (seqCells rest).map (fun l => x :: l)

/-- `series.rolling(n).mean()` at row `t`: defined only when the window is
full (`n ≤ t+1`, `n ≠ 0`) and every cell in it is finite. -/
def rollingMeanAt (n : ℕ) (f : ℕ → PF) (t : ℕ) : PF :=
  if t + 1 < n ∨ n = 0 then none
  else
    match seqCells (windowList f n t) with
    | none => none
    | some l => some (l.sum / (n : ℚ))

/-- `series.rolling(n).var(ddof=0)` at row `t` (population variance); the
rolling std is its nonnegative square root. -/
def rollingVarAt (n : ℕ) (f : ℕ → PF) (t : ℕ) : PF :=
  if t + 1 < n ∨ n = 0 then none
  else
    match seqCells (windowList f n t) with
    | none => none
    | some l => some (((l.map (fun x => (x - l.sum / (n : ℚ)) ^ 2)).sum) / (n : ℚ))

/-- One cell of the std column matches one cell of the variance column:
both NaN, or the std squares to the variance and is nonnegative. -/
def stdMatch : PF → PF → Prop
  | some v, some d => d ^ 2 = v ∧ 0 ≤ d
  | none, none => True
  | _, _ => False

instance : ∀ v d, Decidable (stdMatch v d) := by
  intro v d
  cases v <;> cases d <;> simp [stdMatch] <;> infer_instance

/-- `sd` is the rolling standard deviation (window `n`, ddof=0) of the
close column `closes`. -/
def IsRollingStd (n : ℕ) (closes sd : List PF) : Prop :=
  sd.length = closes.length ∧
  ∀ t < closes.length, stdMatch (rollingVarAt n (att closes) t) (att sd t)

/-- `series.ewm(alpha, adjust=False).mean()` at row `t`, for a series whose
missing values are a (possibly empty) leading prefix: NaN until the first
finite value, that value there, then the exponential recursion
`y = (1-α)·y_prev + α·x` (a missing value carries the state forward). -/
def ewmState (a : ℚ) (f : ℕ → PF) : ℕ → PF
  | 0 => f 0
  | t + 1 =>
    match ewmState a f t, f (t + 1) with
    | none, v => v
    | some m, none => some m
    | some m, some x => some ((1 - a) * m + a * x)

/-! ## RSI feature (`core/features/candles/rsi.py`) -/

/-- Configuration settings for the RSI feature. -/
structure RSIConfig where
  length : ℕ := 14
  overbought : ℚ := 70
  oversold : ℚ := 30
deriving DecidableEq

/-- `delta.clip(lower=0)` at row `t`: the gain series. -/
def gainAt (closes : List PF) (t : ℕ) : PF := pClipLower0 (diffAt closes t)

/-- `-delta.clip(upper=0)` at row `t`: the loss series. -/
def lossAt (closes : List PF) (t : ℕ) : PF :=
  (diffAt closes t).map (fun d => -(min d 0))

/-- `gain.ewm(alpha=1/length, adjust=False).mean()` at row `t`. -/
def avgGainAt (cfg : RSIConfig) (closes : List PF) (t : ℕ) : PF :=
  ewmState (1 / (cfg.length : ℚ)) (gainAt closes) t

/-- `loss.ewm(alpha=1/length, adjust=False).mean()` at row `t`. -/
def avgLossAt (cfg : RSIConfig) (closes : List PF) (t : ℕ) : PF :=
  ewmState (1 / (cfg.length : ℚ)) (lossAt closes) t

/-- The epsilon added to the average loss to avoid division by zero. -/
def rsiEps : ℚ := 1 / 1000000000000

/-- `rs = avg_gain / (avg_loss + 1e-12)` at row `t`. -/
def rsAt (cfg : RSIConfig) (closes : List PF) (t : ℕ) : PF :=
  pDiv (avgGainAt cfg closes t) (pAdd (avgLossAt cfg closes t) (some rsiEps))

/-- `df["rsi"] = 100 - (100 / (1 + rs))` at row `t`. -/
def rsiAt (cfg : RSIConfig) (closes : List PF) (t : ℕ) : PF :=
  pSub (some 100) (pDiv (some 100) (pAdd (some 1) (rsAt cfg closes t)))

/-- The RSI `signal` column at row `t`: initialised to 0, set to 1 where
`rsi < oversold`, then set to -1 where `rsi > overbought` (the later
assignment wins on overlap). -/
def rsiSignalAt (cfg : RSIConfig) (closes : List PF) (t : ℕ) : ℤ :=
  if pGt (rsiAt cfg closes t) (some cfg.overbought) then -1
  else if pLt (rsiAt cfg closes t) (some cfg.oversold) then 1
  else 0

/-- The RSI `signal_intensity` column at row `t`: initialised to 0.0, then
overwritten on the long mask with `((oversold - rsi)/oversold).clip(0,1)`
and on the short mask with
`((rsi - overbought)/(100 - overbought)).clip(0,1)`. -/
def rsiIntensityAt (cfg : RSIConfig) (closes : List PF) (t : ℕ) : PF :=
  if rsiSignalAt cfg closes t = 1 then
    pClip01 (pDiv (pSub (some cfg.oversold) (rsiAt cfg closes t)) (some cfg.oversold))
  else if rsiSignalAt cfg closes t = -1 then
    pClip01 (pDiv (pSub (rsiAt cfg closes t) (some cfg.overbought))
      (some ((100 : ℚ) - cfg.overbought)))
  else some 0

/-- `RSIFeature.create_signal`: read `signal` and `signal_intensity` on the
last row; return a populated signal value `dir * intensity` only when
`abs(dir) == 1 and intensity >= min_intensity` (a NaN intensity compares
`False`), else `none`. -/
def rsiCreateSignal (cfg : RSIConfig) (closes : List PF) (minIntensity : ℚ) : Option ℚ :=
  match rsiIntensityAt cfg closes (closes.length - 1) with
  | none => none
  | some i =>
    if (rsiSignalAt cfg closes (closes.length - 1)).natAbs = 1 ∧ minIntensity ≤ i then
      some ((rsiSignalAt cfg closes (closes.length - 1) : ℚ) * i)
    else none

/-! ## Bollinger Bands feature (`core/features/candles/bb.py`) -/

/-- Configuration for the Bollinger Bands feature. -/
structure BollingerConfig where
  length : ℕ := 20
  mult : ℚ := 2
deriving DecidableEq

/-- `df['bb_mid'] = close.rolling(length).mean()` at row `t`. -/
def bbMidAt (cfg : BollingerConfig) (closes : List PF) (t : ℕ) : PF :=
  rollingMeanAt cfg.length (att closes) t

/-- `df['bb_upper'] = ma + mult * sd` at row `t` (`sd` is the rolling std
column, see `IsRollingStd`). -/
def bbUpperAt (cfg : BollingerConfig) (closes sd : List PF) (t : ℕ) : PF :=
  pAdd (bbMidAt cfg closes t) (pMul (some cfg.mult) (att sd t))

/-- `df['bb_lower'] = ma - mult * sd` at row `t`. -/
def bbLowerAt (cfg : BollingerConfig) (closes sd : List PF) (t : ℕ) : PF :=
  pSub (bbMidAt cfg closes t) (pMul (some cfg.mult) (att sd t))

/-- `df['bb_width'] = (bb_upper - bb_lower) / bb_mid` at row `t`. -/
def bbWidthAt (cfg : BollingerConfig) (closes sd : List PF) (t : ℕ) : PF :=
  pDiv (pSub (bbUpperAt cfg closes sd t) (bbLowerAt cfg closes sd t))
    (bbMidAt cfg closes t)

/-- `df['band_pos'] = (close - bb_lower) / (bb_upper - bb_lower)` at row
`t`. -/
def bbBandPosAt (cfg : BollingerConfig) (closes sd : List PF) (t : ℕ) : PF :=
  pDiv (pSub (att closes t) (bbLowerAt cfg closes sd t))
    (pSub (bbUpperAt cfg closes sd t) (bbLowerAt cfg closes sd t))

/-- The Bollinger `signal` column at row `t`: initialised to 0, set to 1
where `close < bb_lower`, then to -1 where `close > bb_upper` (the later
assignment wins on overlap). -/
def bbSignalAt (cfg : BollingerConfig) (closes sd : List PF) (t : ℕ) : ℤ :=
  if pGt (att closes t) (bbUpperAt cfg closes sd t) then -1
  else if pLt (att closes t) (bbLowerAt cfg closes sd t) then 1
  else 0

/-- The Bollinger `signal_intensity` column at row `t`: initialised to 0.0,
overwritten on the long mask with
`((bb_mid - close).clip(lower=0) / (bb_upper - bb_lower)).clip(0, 1)` and
on the short mask with the symmetric upper-distance expression. -/
def bbIntensityAt (cfg : BollingerConfig) (closes sd : List PF) (t : ℕ) : PF :=
  if bbSignalAt cfg closes sd t = 1 then
    pClip01 (pDiv (pClipLower0 (pSub (bbMidAt cfg closes t) (att closes t)))
      (pSub (bbUpperAt cfg closes sd t) (bbLowerAt cfg closes sd t)))
  else if bbSignalAt cfg closes sd t = -1 then
    pClip01 (pDiv (pClipLower0 (pSub (att closes t) (bbMidAt cfg closes t)))
      (pSub (bbUpperAt cfg closes sd t) (bbLowerAt cfg closes sd t)))
  else some 0

/-- `BollingerFeature.create_signal`: read `signal` and `signal_intensity`
on the last row; return `dir * intensity` only when
`abs(dir) == 1 and intensity >= min_intensity`, else `none`. -/
def bbCreateSignal (cfg : BollingerConfig) (closes sd : List PF)
    (minIntensity : ℚ) : Option ℚ :=
  match bbIntensityAt cfg closes sd (closes.length - 1) with
  | none => none
  | some i =>
    if (bbSignalAt cfg closes sd (closes.length - 1)).natAbs = 1 ∧ minIntensity ≤ i then
      some ((bbSignalAt cfg closes sd (closes.length - 1) : ℚ) * i)
    else none

/-- A candle dataframe as both features receive it: the `close` column is
present (`some`) or absent (`none`). -/
structure CandlesFrame where
  close : Option (List PF)

/-- `RSIFeature.calculate`: raises (`Except.error`) exactly when the frame
has no `close` column; otherwise returns the derived rsi, signal and
intensity columns. -/
def rsiCalculate (cfg : RSIConfig) (f : CandlesFrame) :
    Except String (List PF × List ℤ × List PF) :=
  match f.close with
  | none => .error "Candles dataframe must contain close column"
  | some closes =>
    .ok ((List.range closes.length).map (rsiAt cfg closes),
      (List.range closes.length).map (rsiSignalAt cfg closes),
      (List.range closes.length).map (rsiIntensityAt cfg closes))

/-- `BollingerFeature.calculate`: raises (`Except.error`) exactly when the
frame has no `close` column; otherwise returns the derived band, position,
signal and intensity columns (the std column `sd` is the input constrained
by `IsRollingStd`). -/
def bbCalculate (cfg : BollingerConfig) (f : CandlesFrame) (sd : List PF) :
    Except String (List PF × List PF × List ℤ × List PF) :=
  match f.close with
  | none => .error "Candles dataframe must contain close column"
  | some closes =>
    .ok ((List.range closes.length).map (bbBandPosAt cfg closes sd),
      (List.range closes.length).map (bbWidthAt cfg closes sd),
      (List.range closes.length).map (bbSignalAt cfg closes sd),
      (List.range closes.length).map (bbIntensityAt cfg closes sd))

/-! ## EMA crossover controller
(`app/controllers/directional_trading/ema_crossover.py`)

The EMA and ADX columns are produced by `pandas_ta` (outside this
repository) and are taken as inputs; the average-volume column and the
signal classification are the repository's own code and are embedded. -/

/-- The configuration fields of `EMACrossoverControllerConfig` that the
signal logic reads. -/
structure EMACrossoverControllerConfig where
  volume_period : ℕ := 20
  volume_multiplier : ℚ := 3 / 2
  adx_threshold : ℚ := 25
deriving DecidableEq

/-- `df["avg_volume"] = volume.rolling(window=volume_period).mean()` at row
`t`. -/
def avgVolumeAt (cfg : EMACrossoverControllerConfig) (volume : List PF) (t : ℕ) : PF :=
  rollingMeanAt cfg.volume_period (att volume) t

/-- The EMA controller's `long_condition` at row `t`. -/
def emaLongCondAt (cfg : EMACrossoverControllerConfig)
    (fast slow adx volume : List PF) (t : ℕ) : Bool :=
  pGt (att fast t) (att slow t) &&
  pLe (shiftAt fast t) (shiftAt slow t) &&
  pGt (att volume t) (pMul (avgVolumeAt cfg volume t) (some cfg.volume_multiplier)) &&
  pGt (att adx t) (some cfg.adx_threshold)

/-- The EMA controller's `short_condition` at row `t`. -/
def emaShortCondAt (cfg : EMACrossoverControllerConfig)
    (fast slow adx volume : List PF) (t : ℕ) : Bool :=
  pLt (att fast t) (att slow t) &&
  pGe (shiftAt fast t) (shiftAt slow t) &&
  pGt (att volume t) (pMul (avgVolumeAt cfg volume t) (some cfg.volume_multiplier)) &&
  pGt (att adx t) (some cfg.adx_threshold)

/-- The EMA controller's `signal` column at row `t`: initialised to 0, set
to 1 on the long mask, then to -1 on the short mask. -/
def emaSignalAt (cfg : EMACrossoverControllerConfig)
    (fast slow adx volume : List PF) (t : ℕ) : ℤ :=
  if emaShortCondAt cfg fast slow adx volume t then -1
  else if emaLongCondAt cfg fast slow adx volume t then 1
  else 0

/-! ## MACD momentum controller
(`app/controllers/directional_trading/macd_momentum.py`)

The MACD, MACD-signal, histogram and RSI columns come from `pandas_ta`
(outside this repository) and are taken as inputs; the signal
classification and zero-cross exit override are embedded. -/

/-- The MACD controller's `long_condition` at row `t`. -/
def macdLongCondAt (macd msig hist rsiCol : List PF) (t : ℕ) : Bool :=
  pGt (att macd t) (att msig t) &&
  pLe (shiftAt macd t) (shiftAt msig t) &&
  pGt (att hist t) (shiftAt hist t) &&
  pGt (att rsiCol t) (some 50)

/-- The MACD controller's `short_condition` at row `t`. -/
def macdShortCondAt (macd msig hist rsiCol : List PF) (t : ℕ) : Bool :=
  pLt (att macd t) (att msig t) &&
  pGe (shiftAt macd t) (shiftAt msig t) &&
  pLt (att hist t) (shiftAt hist t) &&
  pLt (att rsiCol t) (some 50)

/-- The MACD controller's `signal` column at row `t`: initialised to 0, set
to 1 on the long mask, then to -1 on the short mask, and finally forced
back to 0 on rows where `macd * macd.shift(1) < 0` (the zero-line exit,
applied last so it overrides the entry classification). -/
def macdSignalColAt (macd msig hist rsiCol : List PF) (t : ℕ) : ℤ :=
  if pLt (pMul (att macd t) (shiftAt macd t)) (some 0) then 0
  else if macdShortCondAt macd msig hist rsiCol t then -1
  else if macdLongCondAt macd msig hist rsiCol t then 1
  else 0

/-! ## Pools screener (`app/tasks/data_collection/pools_screener.py`) -/

/-- The numeric columns of one row of the pools dataframe that
`clean_pools` uses for its derived metrics. -/
structure PoolRow where
  fdv_usd : ℚ
  volume_usd_h24 : ℚ
  reserve_in_usd : ℚ
deriving DecidableEq

/-- `volume_liquidity_ratio`: `volume_usd_h24 / reserve_in_usd` when the
reserve is nonzero, else the fallback 0. -/
def ratio_volume_liquidity (r : PoolRow) : ℚ :=
  if r.reserve_in_usd ≠ 0 then r.volume_usd_h24 / r.reserve_in_usd else 0

/-- `fdv_liquidity_ratio`: `fdv_usd / reserve_in_usd` when the reserve is
nonzero, else the fallback 0. -/
def ratio_fdv_liquidity (r : PoolRow) : ℚ :=
  if r.reserve_in_usd ≠ 0 then r.fdv_usd / r.reserve_in_usd else 0

/-- `fdv_volume_ratio`: `fdv_usd / volume_usd_h24` when the 24h volume is
nonzero, else the fallback 0. -/
def ratio_fdv_volume (r : PoolRow) : ℚ :=
  if r.volume_usd_h24 ≠ 0 then r.fdv_usd / r.volume_usd_h24 else 0

/-! ## Helper lemmas about the cell semantics -/

theorem pAdd_none_left (b : PF) : pAdd none b = none := by cases b <;> rfl

theorem pAdd_none_right (a : PF) : pAdd a none = none := by cases a <;> rfl

theorem pSub_none_left (b : PF) : pSub none b = none := by cases b <;> rfl

theorem pSub_none_right (a : PF) : pSub a none = none := by cases a <;> rfl

theorem pMul_none_left (b : PF) : pMul none b = none := by cases b <;> rfl

theorem pMul_none_right (a : PF) : pMul a none = none := by cases a <;> rfl

theorem pDiv_none_left (b : PF) : pDiv none b = none := by cases b <;> rfl

theorem pDiv_none_right (a : PF) : pDiv a none = none := by cases a <;> rfl

theorem pLt_none_left (b : PF) : pLt none b = false := by cases b <;> rfl

theorem pLt_none_right (a : PF) : pLt a none = false := by cases a <;> rfl

theorem pLe_none_left (b : PF) : pLe none b = false := by cases b <;> rfl

theorem pLe_none_right (a : PF) : pLe a none = false := by cases a <;> rfl

theorem pGt_eq_true_iff (a b : PF) :
    pGt a b = true ↔ ∃ x y, a = some x ∧ b = some y ∧ y < x := by
  cases a <;> cases b <;> simp [pGt, pLt]

theorem pLt_eq_true_iff (a b : PF) :
    pLt a b = true ↔ ∃ x y, a = some x ∧ b = some y ∧ x < y := by
  cases a <;> cases b <;> simp [pLt]

theorem pLe_eq_true_iff (a b : PF) :
    pLe a b = true ↔ ∃ x y, a = some x ∧ b = some y ∧ x ≤ y := by
  cases a <;> cases b <;> simp [pLe]

theorem pGe_eq_true_iff (a b : PF) :
    pGe a b = true ↔ ∃ x y, a = some x ∧ b = some y ∧ y ≤ x := by
  cases a <;> cases b <;> simp [pGe, pLe]

theorem seqCells_eq_some_iff (l : List PF) (l' : List ℚ) :
    seqCells l = some l' ↔ l = l'.map some := by
  induction l generalizing l' with
  | nil => cases l' <;> simp [seqCells]
  | cons hd tl ih =>
    cases hd with
    | none => cases l' <;> simp [seqCells]
    | some x =>
      cases l' with
      | nil => simp [seqCells, Option.map_eq_some']
      | cons y tl' =>
        simp only [seqCells, Option.map_eq_some', List.map_cons, List.cons.injEq,
          Option.some.injEq]
        constructor
        · rintro ⟨a, ha, hx, rfl⟩
          exact ⟨hx, (ih a).mp ha⟩
        · rintro ⟨hx, htl⟩
          exact ⟨tl', (ih tl').mpr htl, hx, rfl⟩

/-! ## C1: MACD zero-line exit override -/

/-- C1: in the MACD momentum controller, whenever MACD(t) and MACD(t-1) are
both defined and their product is negative (the MACD line crosses zero on
this bar), the final `signal` value at row `t` is 0 regardless of the entry
conditions — the zero-line exit is applied after entry classification and
overrides it. -/
theorem macd_zero_cross_forces_exit (macd msig hist rsiCol : List PF) (t : ℕ)
    (a b : ℚ) (ha : att macd t = some a) (hb : shiftAt macd t = some b)
    (hprod : a * b < 0) :
    macdSignalColAt macd msig hist rsiCol t = 0 := by
  unfold macdSignalColAt
  rw [ha, hb]
  simp [pMul, pLt, hprod]

/-- Witness for C1 at a concrete input: MACD goes from 1 to -1, so the
product of consecutive MACD values is negative and the signal is 0. -/
theorem macd_zero_cross_forces_exit_w :
    macdSignalColAt [some 1, some (-1)] [some 0, some 0] [some 0, some 0]
      [some 0, some 0] 1 = 0 :=
  macd_zero_cross_forces_exit _ _ _ _ 1 (-1) 1 (by decide) (by decide) (by norm_num)

/-! ## C9: pools screener safe-division fallbacks -/

/-- C9: in `clean_pools`, each derived ratio falls back to 0 whenever its
denominator is 0: `volume_liquidity_ratio` and `fdv_liquidity_ratio` when
`reserve_in_usd = 0`, and `fdv_volume_ratio` when `volume_usd_h24 = 0`. -/
theorem pool_ratios_zero_denominator (r : PoolRow) :
    (r.reserve_in_usd = 0 →
      ratio_volume_liquidity r = 0 ∧ ratio_fdv_liquidity r = 0) ∧
    (r.volume_usd_h24 = 0 → ratio_fdv_volume r = 0) := by
  constructor
  · intro h
    constructor <;> simp [ratio_volume_liquidity, ratio_fdv_liquidity, h]
  · intro h
    simp [ratio_fdv_volume, h]

/-- Witness for C9 at a concrete pool row with zero reserve and zero 24h
volume. -/
theorem pool_ratios_zero_denominator_w :
    (ratio_volume_liquidity ⟨5, 0, 0⟩ = 0 ∧ ratio_fdv_liquidity ⟨5, 0, 0⟩ = 0) ∧
    ratio_fdv_volume ⟨5, 0, 0⟩ = 0 :=
  ⟨(pool_ratios_zero_denominator ⟨5, 0, 0⟩).1 rfl,
   (pool_ratios_zero_denominator ⟨5, 0, 0⟩).2 rfl⟩

/-! ## C8: missing close column is a hard error -/

/-- C8: for both the RSI and Bollinger features, `calculate` fails with an
error exactly when the candle frame has no `close` column; with `close`
present it returns the derived columns. -/
theorem calculate_missing_close_error (cfgR : RSIConfig) (cfgB : BollingerConfig)
    (f : CandlesFrame) (sd : List PF) :
    ((∃ e, rsiCalculate cfgR f = Except.error e) ↔ f.close = none) ∧
    ((∃ e, bbCalculate cfgB f sd = Except.error e) ↔ f.close = none) := by
  obtain ⟨c⟩ := f
  cases c <;> simp [rsiCalculate, bbCalculate]

/-! ## C7: the RSI oscillator is bounded in [0, 100] -/

theorem one_div_nat_cast_nonneg (n : ℕ) : (0 : ℚ) ≤ 1 / (n : ℚ) := by
  positivity

theorem one_div_nat_cast_le_one (n : ℕ) : (1 : ℚ) / (n : ℚ) ≤ 1 := by
  cases n with
  | zero => simp
  | succ m =>
    rw [div_le_one (by positivity)]
    exact_mod_cast Nat.succ_le_succ (Nat.zero_le m)

/-- The exponential smoothing preserves nonnegativity of its inputs. -/
theorem ewmState_nonneg (a : ℚ) (f : ℕ → PF) (ha0 : 0 ≤ a) (ha1 : a ≤ 1)
    (hf : ∀ t x, f t = some x → 0 ≤ x) :
    ∀ t m, ewmState a f t = some m → 0 ≤ m := by
  intro t
  induction t with
  | zero => exact fun m hm => hf 0 m hm
  | succ n ih =>
    intro m hm
    rw [ewmState] at hm
    cases hst : ewmState a f n with
    | none =>
      rw [hst] at hm
      exact hf (n + 1) m hm
    | some p =>
      rw [hst] at hm
      cases hfv : f (n + 1) with
      | none =>
        rw [hfv] at hm
        injection hm with hm
        exact hm ▸ ih p hst
      | some x =>
        rw [hfv] at hm
        injection hm with hm
        subst hm
        have hp := ih p hst
        have hx := hf (n + 1) x hfv
        have h1a : (0 : ℚ) ≤ 1 - a := by linarith
        nlinarith

/-- Gains are nonnegative wherever defined. -/
theorem gainAt_nonneg (closes : List PF) (t : ℕ) (x : ℚ)
    (h : gainAt closes t = some x) : 0 ≤ x := by
  unfold gainAt pClipLower0 at h
  cases hd : diffAt closes t with
  | none => rw [hd] at h; cases h
  | some d =>
    rw [hd] at h
    injection h with h
    subst h
    exact le_max_right d 0

/-- Losses are nonnegative wherever defined. -/
theorem lossAt_nonneg (closes : List PF) (t : ℕ) (x : ℚ)
    (h : lossAt closes t = some x) : 0 ≤ x := by
  unfold lossAt at h
  cases hd : diffAt closes t with
  | none => rw [hd] at h; cases h
  | some d =>
    rw [hd] at h
    injection h with h
    subst h
    simp only [Left.nonneg_neg_iff]
    exact min_le_right d 0

/-- The relative strength `rs` is nonnegative wherever defined. -/
theorem rsAt_nonneg (cfg : RSIConfig) (closes : List PF) (t : ℕ) (q : ℚ)
    (h : rsAt cfg closes t = some q) : 0 ≤ q := by
  unfold rsAt at h
  cases hg : avgGainAt cfg closes t with
  | none => rw [hg, pDiv_none_left] at h; cases h
  | some g =>
    cases hl : avgLossAt cfg closes t with
    | none => rw [hg, hl] at h; cases h
    | some l =>
      rw [hg, hl] at h
      have hg0 : 0 ≤ g :=
        ewmState_nonneg _ _ (one_div_nat_cast_nonneg _) (one_div_nat_cast_le_one _)
          (gainAt_nonneg closes) t g hg
      have hl0 : 0 ≤ l :=
        ewmState_nonneg _ _ (one_div_nat_cast_nonneg _) (one_div_nat_cast_le_one _)
          (lossAt_nonneg closes) t l hl
      have hden : (0 : ℚ) < l + rsiEps := by
        have : (0 : ℚ) < rsiEps := by norm_num [rsiEps]
        linarith
      simp only [pAdd, pDiv, if_neg (ne_of_gt hden)] at h
      injection h with h
      subst h
      exact div_nonneg hg0 (le_of_lt hden)

/-- C7: on every row where the RSI oscillator is defined, its value lies in
the interval [0, 100]. -/
theorem rsi_bounded (cfg : RSIConfig) (closes : List PF) (t : ℕ) (r : ℚ)
    (h : rsiAt cfg closes t = some r) : 0 ≤ r ∧ r ≤ 100 := by
  unfold rsiAt at h
  cases hq : rsAt cfg closes t with
  | none =>
    rw [hq, pAdd_none_right, pDiv_none_right, pSub_none_right] at h
    cases h
  | some q =>
    have hq0 : 0 ≤ q := rsAt_nonneg cfg closes t q hq
    have hden : (1 : ℚ) + q ≠ 0 := by linarith
    rw [hq] at h
    simp only [pAdd, pDiv, pSub, if_neg hden] at h
    injection h with h
    subst h
    constructor
    · have : (100 : ℚ) / (1 + q) ≤ 100 :=
        div_le_self (by norm_num) (by linarith)
      linarith
    · have : (0 : ℚ) < 100 / (1 + q) := by positivity
      linarith

/-- Witness for C7: at closes [100, 50] the RSI at row 1 is 0, inside
[0, 100]. -/
theorem rsi_bounded_w : (0 : ℚ) ≤ 0 ∧ (0 : ℚ) ≤ 100 :=
  rsi_bounded {} [some 100, some 50] 1 0 (by
    norm_num [rsiAt, rsAt, avgGainAt, avgLossAt, ewmState, gainAt, lossAt, diffAt,
      att, pClipLower0, pSub, pAdd, pDiv, pMul, rsiEps])

/-! ## C6: RSI direction and intensity rule -/

/-- C6: on every row where the oscillator is defined, direction is +1 iff
it is strictly below `oversold`, -1 iff strictly above `overbought`, else
0; and the intensity is the corresponding normalized distance clipped to
[0, 1], and 0 when the direction is 0. On rows where the oscillator is
undefined the direction is 0 and the intensity 0. (Thresholds as in the
defaults: 0 < oversold ≤ overbought < 100.) -/
theorem rsi_signal_rule (cfg : RSIConfig) (closes : List PF) (t : ℕ)
    (hos : 0 < cfg.oversold) (hob : cfg.overbought < 100)
    (hoo : cfg.oversold ≤ cfg.overbought) :
    (∀ r, rsiAt cfg closes t = some r →
      (rsiSignalAt cfg closes t = 1 ↔ r < cfg.oversold) ∧
      (rsiSignalAt cfg closes t = -1 ↔ cfg.overbought < r) ∧
      (r < cfg.oversold →
        rsiIntensityAt cfg closes t =
          some (clip01 ((cfg.oversold - r) / cfg.oversold))) ∧
      (cfg.overbought < r →
        rsiIntensityAt cfg closes t =
          some (clip01 ((r - cfg.overbought) / (100 - cfg.overbought)))) ∧
      (¬ r < cfg.oversold → ¬ cfg.overbought < r →
        rsiIntensityAt cfg closes t = some 0)) ∧
    (rsiAt cfg closes t = none →
      rsiSignalAt cfg closes t = 0 ∧ rsiIntensityAt cfg closes t = some 0) := by
  have hosne : cfg.oversold ≠ 0 := ne_of_gt hos
  have hobne : (100 : ℚ) - cfg.overbought ≠ 0 := by
    intro hz
    rw [sub_eq_zero] at hz
    exact absurd hz.symm (ne_of_lt hob)
  constructor
  · intro r hr
    by_cases h1 : cfg.overbought < r
    · have h2 : ¬ r < cfg.oversold := by linarith
      have hsig : rsiSignalAt cfg closes t = -1 := by
        simp [rsiSignalAt, hr, pGt, pLt, h1]
      have hint : rsiIntensityAt cfg closes t =
          some (clip01 ((r - cfg.overbought) / (100 - cfg.overbought))) := by
        rw [rsiIntensityAt, hsig]
        norm_num [hr, pClip01, pSub, pDiv, hobne]
      rw [hsig, hint]
      refine ⟨?_, ?_, ?_, fun _ => rfl, ?_⟩
      · constructor
        · intro h
          exact absurd h (by decide)
        · intro h
          exact absurd h h2
      · simp [h1]
      · intro h
        exact absurd h h2
      · intro _ h
        exact absurd h1 h
    · by_cases h2 : r < cfg.oversold
      · have hsig : rsiSignalAt cfg closes t = 1 := by
          simp [rsiSignalAt, hr, pGt, pLt, h1, h2]
        have hint : rsiIntensityAt cfg closes t =
            some (clip01 ((cfg.oversold - r) / cfg.oversold)) := by
          rw [rsiIntensityAt, hsig]
          norm_num [hr, pClip01, pSub, pDiv, hosne]
        rw [hsig, hint]
        refine ⟨by simp [h2], ?_, fun _ => rfl, ?_, ?_⟩
        · constructor
          · intro h
            exact absurd h (by decide)
          · intro h
            exact absurd h h1
        · intro h
          exact absurd h h1
        · intro h _
          exact absurd h2 h
      · have hsig : rsiSignalAt cfg closes t = 0 := by
          simp [rsiSignalAt, hr, pGt, pLt, h1, h2]
        have hint : rsiIntensityAt cfg closes t = some 0 := by
          rw [rsiIntensityAt, hsig]
          norm_num
        rw [hsig, hint]
        refine ⟨by simp [h2], by simp [h1], ?_, ?_, fun _ _ => rfl⟩
        · intro h
          exact absurd h h2
        · intro h
          exact absurd h h1
  · intro hr
    have hsig : rsiSignalAt cfg closes t = 0 := by
      simp [rsiSignalAt, hr, pGt, pLt_none_left, pLt_none_right]
    refine ⟨hsig, ?_⟩
    rw [rsiIntensityAt, hsig]
    norm_num

/-- Witness for C6: default thresholds, closes [100, 50]; on row 1 the
oscillator is 0, the direction is long and the intensity is the clipped
normalized distance. -/
theorem rsi_signal_rule_w :
    rsiSignalAt {} [some 100, some 50] 1 = 1 ∧
    rsiIntensityAt {} [some 100, some 50] 1 =
      some (clip01 ((({} : RSIConfig).oversold - 0) / ({} : RSIConfig).oversold)) := by
  have h := (rsi_signal_rule {} [some 100, some 50] 1 (by norm_num) (by norm_num)
    (by norm_num)).1 0 (by
      norm_num [rsiAt, rsAt, avgGainAt, avgLossAt, ewmState, gainAt, lossAt,
        diffAt, att, pClipLower0, pSub, pAdd, pDiv, pMul, rsiEps])
  exact ⟨h.1.mpr (by norm_num), h.2.2.1 (by norm_num)⟩

/-! ## C5: EMA crossover entry rule -/

/-- The claim's long-entry condition for the EMA controller, read over
defined values: an upward cross strictly within this step, a volume spike
and a strong trend. -/
def emaLongEntry (cfg : EMACrossoverControllerConfig)
    (fast slow adx volume : List PF) (t : ℕ) : Prop :=
  (∃ ff ss, att fast t = some ff ∧ att slow t = some ss ∧ ss < ff) ∧
  (∃ pf ps, shiftAt fast t = some pf ∧ shiftAt slow t = some ps ∧ pf ≤ ps) ∧
  (∃ v av, att volume t = some v ∧ avgVolumeAt cfg volume t = some av ∧
    av * cfg.volume_multiplier < v) ∧
  (∃ ax, att adx t = some ax ∧ cfg.adx_threshold < ax)

/-- The claim's short-entry condition for the EMA controller: symmetric
downward cross with the same volume and trend filters. -/
def emaShortEntry (cfg : EMACrossoverControllerConfig)
    (fast slow adx volume : List PF) (t : ℕ) : Prop :=
  (∃ ff ss, att fast t = some ff ∧ att slow t = some ss ∧ ff < ss) ∧
  (∃ pf ps, shiftAt fast t = some pf ∧ shiftAt slow t = some ps ∧ ps ≤ pf) ∧
  (∃ v av, att volume t = some v ∧ avgVolumeAt cfg volume t = some av ∧
    av * cfg.volume_multiplier < v) ∧
  (∃ ax, att adx t = some ax ∧ cfg.adx_threshold < ax)

theorem pGt_some_eq_true_iff (a : PF) (c : ℚ) :
    pGt a (some c) = true ↔ ∃ x, a = some x ∧ c < x := by
  cases a <;> simp [pGt, pLt]

theorem pLt_some_eq_true_iff (a : PF) (c : ℚ) :
    pLt a (some c) = true ↔ ∃ x, a = some x ∧ x < c := by
  cases a <;> simp [pLt]

theorem emaVolCond_iff (cfg : EMACrossoverControllerConfig) (volume : List PF) (t : ℕ) :
    pGt (att volume t) (pMul (avgVolumeAt cfg volume t) (some cfg.volume_multiplier)) = true ↔
    ∃ v av, att volume t = some v ∧ avgVolumeAt cfg volume t = some av ∧
      av * cfg.volume_multiplier < v := by
  cases hv : att volume t <;> cases ha : avgVolumeAt cfg volume t <;>
    simp [pGt, pLt, pMul]

theorem emaLongCondAt_eq_true_iff (cfg : EMACrossoverControllerConfig)
    (fast slow adx volume : List PF) (t : ℕ) :
    emaLongCondAt cfg fast slow adx volume t = true ↔
    emaLongEntry cfg fast slow adx volume t := by
  unfold emaLongCondAt emaLongEntry
  simp only [Bool.and_eq_true]
  rw [pGt_eq_true_iff, pLe_eq_true_iff, emaVolCond_iff, pGt_some_eq_true_iff]
  tauto

theorem emaShortCondAt_eq_true_iff (cfg : EMACrossoverControllerConfig)
    (fast slow adx volume : List PF) (t : ℕ) :
    emaShortCondAt cfg fast slow adx volume t = true ↔
    emaShortEntry cfg fast slow adx volume t := by
  unfold emaShortCondAt emaShortEntry
  simp only [Bool.and_eq_true]
  rw [pLt_eq_true_iff, pGe_eq_true_iff, emaVolCond_iff, pGt_some_eq_true_iff]
  tauto

theorem ema_entry_exclusive (cfg : EMACrossoverControllerConfig)
    (fast slow adx volume : List PF) (t : ℕ)
    (hl : emaLongEntry cfg fast slow adx volume t)
    (hs : emaShortEntry cfg fast slow adx volume t) : False := by
  obtain ⟨⟨ff, ss, h1, h2, h3⟩, -⟩ := hl
  obtain ⟨⟨ff', ss', h1', h2', h3'⟩, -⟩ := hs
  rw [h1] at h1'
  rw [h2] at h2'
  injection h1' with h1'
  injection h2' with h2'
  subst h1'
  subst h2'
  linarith

/-- C5: in the EMA crossover controller, the direction at row `t` is +1
exactly when fast EMA crosses above slow EMA on this bar with the volume
and ADX filters passing, -1 exactly under the symmetric downward-cross
conditions, and 0 otherwise. -/
theorem ema_crossover_signal_iff (cfg : EMACrossoverControllerConfig)
    (fast slow adx volume : List PF) (t : ℕ) :
    (emaSignalAt cfg fast slow adx volume t = 1 ↔
      emaLongEntry cfg fast slow adx volume t) ∧
    (emaSignalAt cfg fast slow adx volume t = -1 ↔
      emaShortEntry cfg fast slow adx volume t) ∧
    (emaSignalAt cfg fast slow adx volume t = 0 ↔
      ¬ emaLongEntry cfg fast slow adx volume t ∧
      ¬ emaShortEntry cfg fast slow adx volume t) := by
  have hliff := emaLongCondAt_eq_true_iff cfg fast slow adx volume t
  have hsiff := emaShortCondAt_eq_true_iff cfg fast slow adx volume t
  unfold emaSignalAt
  by_cases hS : emaShortCondAt cfg fast slow adx volume t = true
  · have hsE := hsiff.mp hS
    have hnl : ¬ emaLongEntry cfg fast slow adx volume t := fun hlE =>
      ema_entry_exclusive cfg fast slow adx volume t hlE hsE
    rw [if_pos hS]
    refine ⟨⟨fun h => absurd h (by decide), fun h => absurd h hnl⟩,
      ⟨fun _ => hsE, fun _ => rfl⟩,
      ⟨fun h => absurd h (by decide), fun h => absurd hsE h.2⟩⟩
  · by_cases hL : emaLongCondAt cfg fast slow adx volume t = true
    · have hlE := hliff.mp hL
      have hns : ¬ emaShortEntry cfg fast slow adx volume t := fun h =>
        hS (hsiff.mpr h)
      rw [if_neg hS, if_pos hL]
      refine ⟨⟨fun _ => hlE, fun _ => rfl⟩,
        ⟨fun h => absurd h (by decide), fun h => absurd h hns⟩,
        ⟨fun h => absurd h (by decide), fun h => absurd hlE h.1⟩⟩
    · have hnl : ¬ emaLongEntry cfg fast slow adx volume t := fun h =>
        hL (hliff.mpr h)
      have hns : ¬ emaShortEntry cfg fast slow adx volume t := fun h =>
        hS (hsiff.mpr h)
      rw [if_neg hS, if_neg hL]
      refine ⟨⟨fun h => absurd h (by decide), fun h => absurd h hnl⟩,
        ⟨fun h => absurd h (by decide), fun h => absurd h hns⟩,
        ⟨fun _ => ⟨hnl, hns⟩, fun _ => rfl⟩⟩

/-! ## C2: warm-up rows and entry signals -/

/-- C2 counterexample: with the default RSI configuration (length 14) and
closes [100, 50], row 1 lies inside the warm-up window yet is classified
as a long entry (direction 1): the exponential smoothing defines the
oscillator from row 1 on, so warm-up rows are not all NaN and can produce
a non-zero direction. -/
theorem rsi_warmup_entry_cex :
    rsiSignalAt {} [some 100, some 50] 1 = 1 ∧ 1 < ({} : RSIConfig).length := by
  constructor
  · norm_num [rsiSignalAt, rsiAt, rsAt, avgGainAt, avgLossAt, ewmState, gainAt,
      lossAt, diffAt, att, pClipLower0, pSub, pAdd, pDiv, pMul, pGt, pLt, rsiEps]
  · decide

/-- C2 (amended): rows whose derived indicator cells are NaN never produce
a non-zero direction. For the Bollinger feature this covers every row of
the warm-up window (the rolling mean is NaN while `t + 1 < length`); for
the EMA-crossover controller it covers every row where any cell read by
the entry conditions is NaN — the EMA, ADX and volume cells, the shifted
EMA cells, and the controller's own `avg_volume` column (NaN on every row
of its `volume_period` warm-up); for the MACD-momentum controller likewise
every cell read by its entry conditions (MACD, MACD-signal, histogram and
RSI cells and their shifted values). For the RSI feature only row 0 is NaN
— the exponential smoothing is defined from row 1 — so within its warm-up
window only row 0 is guaranteed to have direction 0 (see the
counterexample for a warm-up row with a signal). -/
theorem warmup_nan_rows_no_signal :
    (∀ (cfg : BollingerConfig) (closes sd : List PF) (t : ℕ), t + 1 < cfg.length →
      bbSignalAt cfg closes sd t = 0) ∧
    (∀ (cfg : RSIConfig) (closes : List PF), rsiSignalAt cfg closes 0 = 0) ∧
    (∀ (cfg : EMACrossoverControllerConfig) (fast slow adx volume : List PF) (t : ℕ),
      att fast t = none ∨ att slow t = none ∨ att adx t = none ∨
      att volume t = none ∨ avgVolumeAt cfg volume t = none ∨
      shiftAt fast t = none ∨ shiftAt slow t = none →
      emaSignalAt cfg fast slow adx volume t = 0) ∧
    (∀ (macd msig hist rsiCol : List PF) (t : ℕ),
      att macd t = none ∨ att msig t = none ∨ att hist t = none ∨
      att rsiCol t = none ∨ shiftAt macd t = none ∨ shiftAt msig t = none ∨
      shiftAt hist t = none →
      macdSignalColAt macd msig hist rsiCol t = 0) := by
  refine ⟨?_, ?_, ?_, ?_⟩
  · intro cfg closes sd t ht
    have hmid : bbMidAt cfg closes t = none := by
      unfold bbMidAt rollingMeanAt
      rw [if_pos (Or.inl ht)]
    simp [bbSignalAt, bbUpperAt, bbLowerAt, hmid, pAdd_none_left, pSub_none_left,
      pGt, pLt_none_left, pLt_none_right]
  · intro cfg closes
    have h0 : rsiAt cfg closes 0 = none := by
      simp [rsiAt, rsAt, avgGainAt, avgLossAt, ewmState, gainAt, lossAt, diffAt,
        pClipLower0, pAdd_none_left, pAdd_none_right, pDiv_none_left,
        pDiv_none_right, pSub_none_right]
    simp [rsiSignalAt, h0, pGt, pLt_none_left, pLt_none_right]
  · intro cfg fast slow adx volume t h
    rcases h with h | h | h | h | h | h | h <;>
      simp [emaSignalAt, emaLongCondAt, emaShortCondAt, h, pGt, pGe,
        pLt_none_left, pLt_none_right, pLe_none_left, pLe_none_right,
        pMul_none_left, pMul_none_right]
  · intro macd msig hist rsiCol t h
    rcases h with h | h | h | h | h | h | h <;>
      simp [macdSignalColAt, macdLongCondAt, macdShortCondAt, h, pGt, pGe,
        pLt_none_left, pLt_none_right, pLe_none_left, pLe_none_right,
        pMul_none_left, pMul_none_right]

/-- Witness for the amended C2 at concrete inputs: a Bollinger warm-up row,
RSI row 0, an EMA controller row where every input cell is defined but the
`avg_volume` column is still in its rolling warm-up, and a MACD controller
row with a NaN MACD cell all have direction 0. -/
theorem warmup_nan_rows_no_signal_w :
    bbSignalAt {} [some 1] [none] 0 = 0 ∧
    rsiSignalAt {} [some 1] 0 = 0 ∧
    emaSignalAt {} [some 2] [some 1] [some 30] [some 5] 0 = 0 ∧
    macdSignalColAt [] [] [] [] 0 = 0 :=
  ⟨warmup_nan_rows_no_signal.1 {} [some 1] [none] 0 (by decide),
   warmup_nan_rows_no_signal.2.1 {} [some 1],
   warmup_nan_rows_no_signal.2.2.1 {} [some 2] [some 1] [some 30] [some 5] 0
     (Or.inr (Or.inr (Or.inr (Or.inr (Or.inl (by
       norm_num [avgVolumeAt, rollingMeanAt])))))),
   warmup_nan_rows_no_signal.2.2.2 [] [] [] [] 0 (Or.inl rfl)⟩

/-! ## C3: degenerate Bollinger band -/

theorem list_sum_nonneg_q (l : List ℚ) (h : ∀ x ∈ l, 0 ≤ x) : 0 ≤ l.sum := by
  induction l with
  | nil => simp
  | cons a tl ih =>
    rw [List.sum_cons]
    have ha := h a (List.mem_cons_self a tl)
    have htl := ih (fun x hx => h x (List.mem_cons_of_mem a hx))
    linarith

theorem list_sum_zero_of_nonneg (l : List ℚ) (hnn : ∀ x ∈ l, 0 ≤ x)
    (hs : l.sum = 0) : ∀ x ∈ l, x = 0 := by
  induction l with
  | nil => intro x hx; cases hx
  | cons a tl ih =>
    rw [List.sum_cons] at hs
    have ha := hnn a (List.mem_cons_self a tl)
    have htl := list_sum_nonneg_q tl (fun x hx => hnn x (List.mem_cons_of_mem a hx))
    intro x hx
    rcases List.mem_cons.mp hx with rfl | hx
    · linarith
    · exact ih (fun y hy => hnn y (List.mem_cons_of_mem a hy)) (by linarith) x hx

/-- If the rolling population variance at row `t` is 0, the window is fully
defined, its mean is the rolling mean, and every window value equals that
mean. -/
theorem rollingVar_zero_all_eq_mean (n : ℕ) (f : ℕ → PF) (t : ℕ)
    (h : rollingVarAt n f t = some 0) :
    ∃ l : List ℚ, ¬ (t + 1 < n ∨ n = 0) ∧ windowList f n t = l.map some ∧
      rollingMeanAt n f t = some (l.sum / (n : ℚ)) ∧
      ∀ x ∈ l, x = l.sum / (n : ℚ) := by
  unfold rollingVarAt at h
  by_cases hc : t + 1 < n ∨ n = 0
  · rw [if_pos hc] at h
    cases h
  · rw [if_neg hc] at h
    cases hseq : seqCells (windowList f n t) with
    | none =>
      rw [hseq] at h
      cases h
    | some l =>
      rw [hseq] at h
      injection h with h
      have hn : n ≠ 0 := fun h0 => hc (Or.inr h0)
      have hnq : ((n : ℚ)) ≠ 0 := Nat.cast_ne_zero.mpr hn
      have hsum : (l.map (fun x => (x - l.sum / (n : ℚ)) ^ 2)).sum = 0 := by
        rcases div_eq_zero_iff.mp h with h0 | h0
        · exact h0
        · exact absurd h0 hnq
      have hall := list_sum_zero_of_nonneg _
        (by
          intro x hx
          rw [List.mem_map] at hx
          obtain ⟨y, -, rfl⟩ := hx
          positivity) hsum
      refine ⟨l, hc, (seqCells_eq_some_iff _ _).mp hseq, ?_, ?_⟩
      · unfold rollingMeanAt
        rw [if_neg hc, hseq]
      · intro x hx
        have hx0 := hall ((x - l.sum / (n : ℚ)) ^ 2) (List.mem_map_of_mem _ hx)
        have := pow_eq_zero_iff (two_ne_zero) |>.mp hx0
        linarith [sub_eq_zero.mp this]

/-- C3 counterexample: a constant close series (length-2 window, std 0) at
row 1 has rolling variance 0, yet `band_pos` is NaN (0 / 0), not 0.5. -/
theorem bb_degenerate_band_pos_cex :
    IsRollingStd 2 [some 1, some 1] [none, some 0] ∧
    rollingVarAt 2 (att [some 1, some 1]) 1 = some 0 ∧
    bbBandPosAt ⟨2, 2⟩ [some 1, some 1] [none, some 0] 1 ≠ some (1 / 2) := by
  refine ⟨⟨rfl, ?_⟩, ?_, ?_⟩
  · intro t ht
    have ht2 : t < 2 := by simpa using ht
    interval_cases t <;>
      norm_num [stdMatch, rollingVarAt, windowList, seqCells, att,
        List.range_succ]
  · norm_num [rollingVarAt, windowList, seqCells, att, List.range_succ]
  · have hnp : bbBandPosAt ⟨2, 2⟩ [some 1, some 1] [none, some 0] 1 = none := by
      norm_num [bbBandPosAt, bbUpperAt, bbLowerAt, bbMidAt, rollingMeanAt,
        windowList, seqCells, att, pSub, pAdd, pMul, pDiv, List.range_succ]
    rw [hnp]
    simp

/-- C3 (amended): on any row where the rolling variance of close over the
lookback window is 0 (so upper band == lower band), `calculate` is total
(no division error is raised), the direction is 0 and the intensity is 0 —
but `band_pos` is NaN (the 0/0 division), not 0.5. -/
theorem bb_degenerate_band_safe (cfg : BollingerConfig) (closes sd : List PF)
    (t : ℕ) (hstd : IsRollingStd cfg.length closes sd)
    (hvar : rollingVarAt cfg.length (att closes) t = some 0) :
    bbSignalAt cfg closes sd t = 0 ∧ bbIntensityAt cfg closes sd t = some 0 ∧
    bbBandPosAt cfg closes sd t = none := by
  obtain ⟨l, hc, hwin, hmean, hall⟩ :=
    rollingVar_zero_all_eq_mean cfg.length (att closes) t hvar
  have hn : cfg.length ≠ 0 := fun h0 => hc (Or.inr h0)
  cases l with
  | nil =>
    exfalso
    have hlen := congrArg List.length hwin
    simp [windowList] at hlen
    exact hn hlen
  | cons c rest =>
    obtain ⟨m, hm⟩ : ∃ m, cfg.length = m + 1 := ⟨cfg.length - 1, by omega⟩
    have hct : att closes t = some c := by
      rw [hm, windowList, List.range_succ_eq_map] at hwin
      simp only [List.map_cons, Nat.sub_zero] at hwin
      exact ((List.cons.injEq _ _ _ _).mp hwin).1
    have hcm : c = (c :: rest).sum / ((cfg.length : ℚ)) :=
      hall c (List.mem_cons_self c rest)
    have htlen : t < closes.length := by
      by_contra hge
      rw [att, List.get?_eq_none.mpr (by omega)] at hct
      cases hct
    have hsm := hstd.2 t htlen
    rw [hvar] at hsm
    cases hsd : att sd t with
    | none =>
      rw [hsd] at hsm
      cases hsm
    | some d =>
      rw [hsd] at hsm
      obtain ⟨hd2, hd0⟩ := hsm
      have hd : d = 0 := pow_eq_zero_iff two_ne_zero |>.mp hd2
      subst hd
      have hup : bbUpperAt cfg closes sd t =
          some ((c :: rest).sum / ((cfg.length : ℚ))) := by
        rw [bbUpperAt, bbMidAt, hmean, hsd]
        simp [pAdd, pMul]
      have hlo : bbLowerAt cfg closes sd t =
          some ((c :: rest).sum / ((cfg.length : ℚ))) := by
        rw [bbLowerAt, bbMidAt, hmean, hsd]
        simp [pSub, pMul]
      have hsig : bbSignalAt cfg closes sd t = 0 := by
        rw [bbSignalAt, hup, hlo, hct, ← hcm]
        simp [pGt, pLt]
      refine ⟨hsig, ?_, ?_⟩
      · rw [bbIntensityAt, hsig]
        norm_num
      · rw [bbBandPosAt, hup, hlo, hct, ← hcm]
        simp [pSub, pDiv]

/-- Witness for the amended C3 at the counterexample input: constant
closes, window 2, row 1. -/
theorem bb_degenerate_band_safe_w :
    bbSignalAt ⟨2, 2⟩ [some 1, some 1] [none, some 0] 1 = 0 ∧
    bbIntensityAt ⟨2, 2⟩ [some 1, some 1] [none, some 0] 1 = some 0 ∧
    bbBandPosAt ⟨2, 2⟩ [some 1, some 1] [none, some 0] 1 = none :=
  bb_degenerate_band_safe ⟨2, 2⟩ [some 1, some 1] [none, some 0] 1
    ⟨rfl, by
      intro t ht
      have ht2 : t < 2 := by simpa using ht
      interval_cases t <;>
        norm_num [stdMatch, rollingVarAt, windowList, seqCells, att,
          List.range_succ]⟩
    (by norm_num [rollingVarAt, windowList, seqCells, att, List.range_succ])

/-! ## C10: non-zero Bollinger signals have intensity above one half -/

theorem clip01_bounds (q : ℚ) (hq : 1 / 2 < q) :
    1 / 2 < clip01 q ∧ clip01 q ≤ 1 := by
  unfold clip01
  refine ⟨?_, min_le_right _ _⟩
  rw [lt_min_iff]
  exact ⟨lt_of_lt_of_le hq (le_max_left q 0), by norm_num⟩

/-- C10: on every row where the Bollinger direction is non-zero and the
band width is strictly positive (upper band > lower band), the signal
intensity is defined and lies in (1/2, 1]: an entry requires the close to
be beyond a band, so its distance from the mid-band exceeds half the band
width. -/
theorem bb_intensity_above_half (cfg : BollingerConfig) (closes sd : List PF)
    (t : ℕ) (u l : ℚ) (hu : bbUpperAt cfg closes sd t = some u)
    (hl : bbLowerAt cfg closes sd t = some l) (hlu : l < u)
    (hsig : bbSignalAt cfg closes sd t ≠ 0) :
    ∃ i, bbIntensityAt cfg closes sd t = some i ∧ 1 / 2 < i ∧ i ≤ 1 := by
  cases hmid : bbMidAt cfg closes t with
  | none =>
    rw [bbUpperAt, hmid, pAdd_none_left] at hu
    cases hu
  | some m =>
    cases hsd : att sd t with
    | none =>
      rw [bbUpperAt, hmid, hsd, pMul_none_right, pAdd_none_right] at hu
      cases hu
    | some d =>
      have hU : bbUpperAt cfg closes sd t = some (m + cfg.mult * d) := by
        rw [bbUpperAt, hmid, hsd]
        rfl
      have hL : bbLowerAt cfg closes sd t = some (m - cfg.mult * d) := by
        rw [bbLowerAt, hmid, hsd]
        rfl
      rw [hU] at hu
      rw [hL] at hl
      injection hu with hu
      injection hl with hl
      subst hu
      subst hl
      have hmd : (0 : ℚ) < cfg.mult * d := by linarith
      have hD : (0 : ℚ) < m + cfg.mult * d - (m - cfg.mult * d) := by linarith
      by_cases hS : pGt (att closes t) (bbUpperAt cfg closes sd t) = true
      · obtain ⟨cv, hcv, hgt⟩ := (pGt_some_eq_true_iff _ _).mp (hU ▸ hS)
        have hsigv : bbSignalAt cfg closes sd t = -1 := by
          rw [bbSignalAt, if_pos hS]
        have hmax : max (cv - m) 0 = cv - m := max_eq_left (by linarith)
        have hq : 1 / 2 < max (cv - m) 0 / (m + cfg.mult * d - (m - cfg.mult * d)) := by
          rw [hmax, lt_div_iff₀ hD]
          linarith
        refine ⟨clip01 (max (cv - m) 0 / (m + cfg.mult * d - (m - cfg.mult * d))),
          ?_, (clip01_bounds _ hq).1, (clip01_bounds _ hq).2⟩
        rw [bbIntensityAt, hsigv]
        norm_num [hcv, hmid, hU, hL, pSub, pClipLower0, pDiv, pClip01, hD.ne']
        exact ⟨_, ⟨⟨fun h0 => by simp [h0] at hmd, fun h0 => by simp [h0] at hmd⟩,
          rfl⟩, rfl⟩
      · have hLng : pLt (att closes t) (bbLowerAt cfg closes sd t) = true := by
          rw [bbSignalAt, if_neg hS] at hsig
          by_cases hLl : pLt (att closes t) (bbLowerAt cfg closes sd t) = true
          · exact hLl
          · rw [if_neg hLl] at hsig
            exact absurd rfl hsig
        obtain ⟨cv, hcv, hltv⟩ := (pLt_some_eq_true_iff _ _).mp (hL ▸ hLng)
        have hsigv : bbSignalAt cfg closes sd t = 1 := by
          rw [bbSignalAt, if_neg hS, if_pos hLng]
        have hmax : max (m - cv) 0 = m - cv := max_eq_left (by linarith)
        have hq : 1 / 2 < max (m - cv) 0 / (m + cfg.mult * d - (m - cfg.mult * d)) := by
          rw [hmax, lt_div_iff₀ hD]
          linarith
        refine ⟨clip01 (max (m - cv) 0 / (m + cfg.mult * d - (m - cfg.mult * d))),
          ?_, (clip01_bounds _ hq).1, (clip01_bounds _ hq).2⟩
        rw [bbIntensityAt, hsigv]
        norm_num [hcv, hmid, hU, hL, pSub, pClipLower0, pDiv, pClip01, hD.ne']
        exact ⟨_, ⟨⟨fun h0 => by simp [h0] at hmd, fun h0 => by simp [h0] at hmd⟩,
          rfl⟩, rfl⟩

/-- Witness for C10 at a concrete input: window 2, multiplier 1/2, closes
[0, 8, -2]; at row 2 the direction is long, the band is non-degenerate and
the intensity is 1 ∈ (1/2, 1]. -/
theorem bb_intensity_above_half_w :
    ∃ i, bbIntensityAt ⟨2, 1 / 2⟩ [some 0, some 8, some (-2)]
        [none, some 4, some 5] 2 = some i ∧ 1 / 2 < i ∧ i ≤ 1 :=
  bb_intensity_above_half ⟨2, 1 / 2⟩ [some 0, some 8, some (-2)]
    [none, some 4, some 5] 2 (11 / 2) (1 / 2)
    (by norm_num [bbUpperAt, bbMidAt, rollingMeanAt, windowList, seqCells, att,
      pAdd, pMul, List.range_succ])
    (by norm_num [bbLowerAt, bbMidAt, rollingMeanAt, windowList, seqCells, att,
      pSub, pMul, List.range_succ])
    (by norm_num)
    (by norm_num [bbSignalAt, bbUpperAt, bbLowerAt, bbMidAt, rollingMeanAt,
      windowList, seqCells, att, pGt, pLt, pAdd, pSub, pMul, List.range_succ])

/-! ## C4: `create_signal` emits iff the thresholds clear -/

theorem rsiCreateSignal_eq (cfgR : RSIConfig) (closesR : List PF) (minR : ℚ)
    (i : ℚ) (hi : rsiIntensityAt cfgR closesR (closesR.length - 1) = some i) :
    rsiCreateSignal cfgR closesR minR =
      if (rsiSignalAt cfgR closesR (closesR.length - 1)).natAbs = 1 ∧ minR ≤ i then
        some (((rsiSignalAt cfgR closesR (closesR.length - 1) : ℤ) : ℚ) * i)
      else none := by
  unfold rsiCreateSignal
  rw [hi]

theorem rsiCreateSignal_no_intensity (cfgR : RSIConfig) (closesR : List PF)
    (minR : ℚ) (hi : rsiIntensityAt cfgR closesR (closesR.length - 1) = none) :
    rsiCreateSignal cfgR closesR minR = none := by
  unfold rsiCreateSignal
  rw [hi]

theorem bbCreateSignal_eq (cfgB : BollingerConfig) (closesB sdB : List PF)
    (minB : ℚ) (i : ℚ)
    (hi : bbIntensityAt cfgB closesB sdB (closesB.length - 1) = some i) :
    bbCreateSignal cfgB closesB sdB minB =
      if (bbSignalAt cfgB closesB sdB (closesB.length - 1)).natAbs = 1 ∧ minB ≤ i then
        some (((bbSignalAt cfgB closesB sdB (closesB.length - 1) : ℤ) : ℚ) * i)
      else none := by
  unfold bbCreateSignal
  rw [hi]

theorem bbCreateSignal_no_intensity (cfgB : BollingerConfig) (closesB sdB : List PF)
    (minB : ℚ)
    (hi : bbIntensityAt cfgB closesB sdB (closesB.length - 1) = none) :
    bbCreateSignal cfgB closesB sdB minB = none := by
  unfold bbCreateSignal
  rw [hi]

/-- C4: for both the RSI and Bollinger features, `create_signal` returns a
populated signal iff the latest row's direction has absolute value 1 and
its intensity is defined and at least `min_intensity`; the emitted value is
exactly direction × intensity; in every other case (including a non-zero
direction whose intensity falls short) it returns absence, not a
zero-valued record. -/
theorem create_signal_iff (cfgR : RSIConfig) (closesR : List PF) (minR : ℚ)
    (cfgB : BollingerConfig) (closesB sdB : List PF) (minB : ℚ) :
    ((∃ v, rsiCreateSignal cfgR closesR minR = some v) ↔
      ((rsiSignalAt cfgR closesR (closesR.length - 1)).natAbs = 1 ∧
        ∃ i, rsiIntensityAt cfgR closesR (closesR.length - 1) = some i ∧ minR ≤ i)) ∧
    (∀ v, rsiCreateSignal cfgR closesR minR = some v →
      ∃ i, rsiIntensityAt cfgR closesR (closesR.length - 1) = some i ∧
        v = ((rsiSignalAt cfgR closesR (closesR.length - 1) : ℤ) : ℚ) * i) ∧
    ((∃ v, bbCreateSignal cfgB closesB sdB minB = some v) ↔
      ((bbSignalAt cfgB closesB sdB (closesB.length - 1)).natAbs = 1 ∧
        ∃ i, bbIntensityAt cfgB closesB sdB (closesB.length - 1) = some i ∧ minB ≤ i)) ∧
    (∀ v, bbCreateSignal cfgB closesB sdB minB = some v →
      ∃ i, bbIntensityAt cfgB closesB sdB (closesB.length - 1) = some i ∧
        v = ((bbSignalAt cfgB closesB sdB (closesB.length - 1) : ℤ) : ℚ) * i) := by
  refine ⟨?_, ?_, ?_, ?_⟩
  · cases hi : rsiIntensityAt cfgR closesR (closesR.length - 1) with
    | none =>
      rw [rsiCreateSignal_no_intensity cfgR closesR minR hi]
      simp
    | some i =>
      rw [rsiCreateSignal_eq cfgR closesR minR i hi]
      by_cases hc : (rsiSignalAt cfgR closesR (closesR.length - 1)).natAbs = 1 ∧ minR ≤ i
      · rw [if_pos hc]
        exact ⟨fun _ => ⟨hc.1, i, rfl, hc.2⟩, fun _ => ⟨_, rfl⟩⟩
      · rw [if_neg hc]
        constructor
        · rintro ⟨v, hv⟩
          cases hv
        · rintro ⟨h1, i2, hi2, h2⟩
          injection hi2 with hi2
          subst hi2
          exact absurd ⟨h1, h2⟩ hc
  · intro v hv
    cases hi : rsiIntensityAt cfgR closesR (closesR.length - 1) with
    | none =>
      rw [rsiCreateSignal_no_intensity cfgR closesR minR hi] at hv
      cases hv
    | some i =>
      rw [rsiCreateSignal_eq cfgR closesR minR i hi] at hv
      by_cases hc : (rsiSignalAt cfgR closesR (closesR.length - 1)).natAbs = 1 ∧ minR ≤ i
      · rw [if_pos hc] at hv
        injection hv with hv
        exact ⟨i, rfl, hv.symm⟩
      · rw [if_neg hc] at hv
        cases hv
  · cases hi : bbIntensityAt cfgB closesB sdB (closesB.length - 1) with
    | none =>
      rw [bbCreateSignal_no_intensity cfgB closesB sdB minB hi]
      simp
    | some i =>
      rw [bbCreateSignal_eq cfgB closesB sdB minB i hi]
      by_cases hc : (bbSignalAt cfgB closesB sdB (closesB.length - 1)).natAbs = 1 ∧ minB ≤ i
      · rw [if_pos hc]
        exact ⟨fun _ => ⟨hc.1, i, rfl, hc.2⟩, fun _ => ⟨_, rfl⟩⟩
      · rw [if_neg hc]
        constructor
        · rintro ⟨v, hv⟩
          cases hv
        · rintro ⟨h1, i2, hi2, h2⟩
          injection hi2 with hi2
          subst hi2
          exact absurd ⟨h1, h2⟩ hc
  · intro v hv
    cases hi : bbIntensityAt cfgB closesB sdB (closesB.length - 1) with
    | none =>
      rw [bbCreateSignal_no_intensity cfgB closesB sdB minB hi] at hv
      cases hv
    | some i =>
      rw [bbCreateSignal_eq cfgB closesB sdB minB i hi] at hv
      by_cases hc : (bbSignalAt cfgB closesB sdB (closesB.length - 1)).natAbs = 1 ∧ minB ≤ i
      · rw [if_pos hc] at hv
        injection hv with hv
        exact ⟨i, rfl, hv.symm⟩
      · rw [if_neg hc] at hv
        cases hv

/-- Witness for C4: concrete RSI and Bollinger inputs whose latest rows
emit signals, with the emitted values equal to direction × intensity. -/
theorem create_signal_iff_w :
    (∃ i, rsiIntensityAt {} [some 100, some 50] 1 = some i ∧
      (1 : ℚ) = ((rsiSignalAt {} [some 100, some 50] 1 : ℤ) : ℚ) * i) ∧
    (∃ i, bbIntensityAt ⟨2, 1 / 2⟩ [some 0, some 8, some (-2)]
        [none, some 4, some 5] 2 = some i ∧
      (1 : ℚ) = ((bbSignalAt ⟨2, 1 / 2⟩ [some 0, some 8, some (-2)]
        [none, some 4, some 5] 2 : ℤ) : ℚ) * i) :=
  ⟨(create_signal_iff {} [some 100, some 50] (6 / 10) ⟨2, 1 / 2⟩
      [some 0, some 8, some (-2)] [none, some 4, some 5] (6 / 10)).2.1 1
      (by
        norm_num [rsiCreateSignal, rsiIntensityAt, rsiSignalAt, rsiAt, rsAt,
          avgGainAt, avgLossAt, ewmState, gainAt, lossAt, diffAt, att,
          pClipLower0, pClip01, clip01, pSub, pAdd, pDiv, pMul, pGt, pLt, rsiEps]),
   (create_signal_iff {} [some 100, some 50] (6 / 10) ⟨2, 1 / 2⟩
      [some 0, some 8, some (-2)] [none, some 4, some 5] (6 / 10)).2.2.2 1
      (by
        norm_num [bbCreateSignal, bbIntensityAt, bbSignalAt, bbUpperAt, bbLowerAt,
          bbMidAt, rollingMeanAt, windowList, seqCells, att, pClipLower0, pClip01,
          clip01, pSub, pAdd, pDiv, pMul, pGt, pLt, List.range_succ])⟩
